import Mathlib

/-!
Verification of the eko evolution-kernel documentation against a shallow
embedding of the quantities it describes.  The repository snapshot ships only
the documentation (doc/source/theory/pQCD.rst) and packaging metadata; the
numerical Python sources (eko.couplings, eko.thresholds, eko.msbar_masses,
ekore anomalous dimensions, eko scale variations) are not present, so each
definition below is modelled from the specification text and from the closed
formulas printed in pQCD.rst, as indicated in its doc comment.
-/

namespace Eko

/-- Modelled from the spec: the error taxonomy of section 7 (the Python
sources raising these errors are absent).  ConfigurationError is fatal and
surfaced immediately; NumericalConvergenceError reports a tolerance failure. -/
inductive EkoError where
  | configurationError (msg : String)
  | numericalConvergenceError (msg : String)
deriving DecidableEq

/-- Modelled from the spec: the two solving strategies of the strong-coupling
RGE offered by eko.couplings.Couplings (pQCD.rst, Strong Coupling): the
method names are the strings "exact" and "expanded" in the theory card. -/
inductive CouplingMethod where
  | exactODE
  | expandedSeries
deriving DecidableEq

/-- Modelled from the spec: the leading-order expanded solution of the
beta-function RGE printed in pQCD.rst,
a_s^LO(mu_R^2) = a_s(mu_0^2) / (1 + a_s(mu_0^2) beta_0 L_mu) with
L_mu = ln(mu_R^2/mu_0^2).  The argument Lmu is that logarithm. -/
noncomputable def asLO (a0 beta0 Lmu : ℝ) : ℝ :=
  a0 / (1 + a0 * beta0 * Lmu)

/-- Modelled from the spec: the coupling solver at leading order,
order = (1, 0).  pQCD.rst states that with method "exact" the solver falls
back to the expanded solution in LO, as this is already the true solution;
with method "expanded" it evaluates the same closed form. -/
noncomputable def couplingLO (m : CouplingMethod) (a0 beta0 Lmu : ℝ) : ℝ :=
  match m with
  | .exactODE => asLO a0 beta0 Lmu
  | .expandedSeries => asLO a0 beta0 Lmu

/-- The leading-order beta function, beta(a) = -beta_0 a^2: the n = 0 term of
the series d a_s / d ln mu^2 = - sum_n beta_n a_s^(n+2) of pQCD.rst. -/
noncomputable def betaLO (beta0 a : ℝ) : ℝ := -(beta0 * a ^ 2)

/-- C1: at leading order the exact strategy returns exactly the expanded
strategy value, the closed form a0 / (1 + a0 beta0 ln(mu^2/mu0^2)); and that
closed form is the true solution of the LO beta-function ODE
d a_s / d ln mu^2 = -beta_0 a_s^2 wherever its denominator does not vanish. -/
theorem couplingLO_exact_eq_expanded_and_solves_ODE (a0 beta0 Lmu : ℝ)
    (h : 1 + a0 * beta0 * Lmu ≠ 0) :
    couplingLO .exactODE a0 beta0 Lmu = couplingLO .expandedSeries a0 beta0 Lmu ∧
    couplingLO .exactODE a0 beta0 Lmu = a0 / (1 + a0 * beta0 * Lmu) ∧
    HasDerivAt (asLO a0 beta0) (betaLO beta0 (asLO a0 beta0 Lmu)) Lmu := by
  refine ⟨rfl, rfl, ?_⟩
  have hden : HasDerivAt (fun x : ℝ => 1 + a0 * beta0 * x) (a0 * beta0) Lmu := by
    simpa using ((hasDerivAt_id Lmu).const_mul (a0 * beta0)).const_add 1
  have hdiv := (hasDerivAt_const Lmu a0).div hden h
  have : asLO a0 beta0 = fun x : ℝ => a0 / (1 + a0 * beta0 * x) := rfl
  rw [this]
  convert hdiv using 1
  simp only [betaLO, asLO]
  field_simp
  ring

/-- Concrete instance of C1 at a0 = 1/10, beta0 = 2, Lmu = 3: the hypothesis
1 + a0 beta0 Lmu = 8/5 is not zero, and the theorem applies. -/
theorem couplingLO_exact_eq_expanded_and_solves_ODE_witness :
    couplingLO .exactODE (1/10) 2 3 = couplingLO .expandedSeries (1/10) 2 3 ∧
    couplingLO .exactODE (1/10) 2 3 = (1/10) / (1 + (1/10) * 2 * 3) ∧
    HasDerivAt (asLO (1/10) 2) (betaLO 2 (asLO (1/10) 2 3)) 3 :=
  couplingLO_exact_eq_expanded_and_solves_ODE (1/10) 2 3 (by norm_num)

/-! ### Anomalous dimensions and sum rules -/

/-- The QCD Casimir C_F = 4/3 (N_c = 3). -/
noncomputable def CF : ℂ := 4 / 3

/-- The QCD Casimir C_A = N_c = 3. -/
noncomputable def CA : ℂ := 3

/-- The QCD normalization T_R = 1/2. -/
noncomputable def TR : ℂ := 1 / 2

/-- The harmonic sum S_1(n) = sum_{i=1..n} 1/i at a non-negative integer
argument; the kernels receive its value at the Mellin point as an input. -/
def harmonicS1 (n : ℕ) : ℚ :=
  ∑ i ∈ Finset.range n, 1 / (i + 1)

/-- Modelled from the spec: the leading-order non-singlet anomalous dimension
(the ekore order-a_s kernel is absent from src).  In the conventions of
pQCD.rst (gamma = -Mellin transform of P, coupling a_s = alpha_s/(4 pi),
Moch:2004pa) it is gamma_ns^(0)(N) = C_F (4 S_1(N) - 3 - 2/(N(N+1))); s1
carries the value of S_1(N). -/
noncomputable def gamma_ns0 (N s1 : ℂ) : ℂ :=
  CF * (4 * s1 - 3 - 2 / (N * (N + 1)))

/-- Modelled from the spec: the leading-order quark-gluon singlet anomalous
dimension, gamma_qg^(0)(N) = -4 n_f T_R (N^2+N+2)/(N(N+1)(N+2)), in the same
conventions. -/
noncomputable def gamma_qg0 (N : ℂ) (nf : ℕ) : ℂ :=
  -(4 * nf * TR * (N ^ 2 + N + 2)) / (N * (N + 1) * (N + 2))

/-- Modelled from the spec: the leading-order gluon-quark singlet anomalous
dimension, gamma_gq^(0)(N) = -2 C_F (N^2+N+2)/((N-1)N(N+1)). -/
noncomputable def gamma_gq0 (N : ℂ) : ℂ :=
  -(2 * CF * (N ^ 2 + N + 2)) / ((N - 1) * N * (N + 1))

/-- Modelled from the spec: the leading-order gluon-gluon anomalous dimension,
gamma_gg^(0)(N) = C_A (4 S_1(N) - 11/3 - 4/(N(N-1)) - 4/((N+1)(N+2)))
+ (4/3) n_f T_R; s1 carries the value of S_1(N). -/
noncomputable def gamma_gg0 (N s1 : ℂ) (nf : ℕ) : ℂ :=
  CA * (4 * s1 - 11 / 3 - 4 / (N * (N - 1)) - 4 / ((N + 1) * (N + 2))) +
    4 / 3 * nf * TR

/-- Modelled from the spec: an anomalous dimension given as a constrained
parametrization (the ekore sources beyond the leading order are absent from
src).  Per spec section 4.4 the coefficients are fit offline so that the
resulting closed form reproduces a finite set of known Mellin moments
exactly; the field reproduces records that defining constraint. -/
structure FittedGamma where
  eval : ℂ → ℂ
  moments : List (ℂ × ℂ)
  reproduces : ∀ p ∈ moments, eval p.1 = p.2

/-- C2: the non-singlet anomalous dimension gamma_ns^- vanishes at the first
Mellin moment N = 1.  At leading order this is a direct computation with the
closed form (S_1(1) = 1); at the parametrized higher orders the pair (1, 0)
is among the known moments the fit reproduces exactly (pQCD.rst: from quark
number conservation gamma_ns,-(1) = 0), so every such parametrization
vanishes at N = 1. -/
theorem gamma_ns_minus_vanishes_at_N1 :
    (harmonicS1 1 = 1 ∧ gamma_ns0 1 1 = 0) ∧
    (∀ g : FittedGamma, (1, 0) ∈ g.moments → g.eval 1 = 0) := by
  refine ⟨⟨by norm_num [harmonicS1], ?_⟩, fun g hg => g.reproduces (1, 0) hg⟩
  simp only [gamma_ns0, CF]
  norm_num

/-- A concrete moment-constrained parametrization with (1, 0) among its known
moments, used to instantiate the quantified part of C2. -/
def fitNSMinusExample : FittedGamma where
  eval := fun N => N - 1
  moments := [(1, 0)]
  reproduces := by
    intro p hp
    simp only [List.mem_singleton] at hp
    subst hp
    simp

/-- Concrete instance of C2: the generic moment-constraint argument applied
to the example parametrization. -/
theorem gamma_ns_minus_vanishes_at_N1_witness :
    (harmonicS1 1 = 1 ∧ gamma_ns0 1 1 = 0) ∧ fitNSMinusExample.eval 1 = 0 :=
  ⟨gamma_ns_minus_vanishes_at_N1.1,
    gamma_ns_minus_vanishes_at_N1.2 fitNSMinusExample (by simp [fitNSMinusExample])⟩

/-- C3: the singlet momentum sum rule at the second Mellin moment.  At
leading order, for every number of active flavors n_f, the closed forms give
gamma_qg(2) + gamma_gg(2) = 0 and gamma_qq(2) + gamma_gq(2) = 0 exactly
(S_1(2) = 3/2, and at this order gamma_qq is the non-singlet kernel); at the
parametrized higher orders the momentum-conservation moments at N = 2 are
among the moments the fits reproduce exactly (pQCD.rst, N3LO singlet
moments), so the flavor-summed columns vanish at N = 2. -/
theorem singlet_momentum_sum_rule_at_N2 :
    (harmonicS1 2 = 3 / 2) ∧
    (∀ nf : ℕ,
      gamma_qg0 2 nf + gamma_gg0 2 (3 / 2) nf = 0 ∧
      gamma_ns0 2 (3 / 2) + gamma_gq0 2 = 0) ∧
    (∀ (gQG gGG gQQ gGQ : FittedGamma) (v w : ℂ),
      (2, v) ∈ gQG.moments → (2, -v) ∈ gGG.moments →
      (2, w) ∈ gQQ.moments → (2, -w) ∈ gGQ.moments →
      gQG.eval 2 + gGG.eval 2 = 0 ∧ gQQ.eval 2 + gGQ.eval 2 = 0) := by
  refine ⟨?_, fun nf => ⟨?_, ?_⟩, ?_⟩
  · norm_num [harmonicS1, Finset.sum_range_succ]
  · simp only [gamma_qg0, gamma_gg0, CA, TR]
    norm_num
    ring
  · simp only [gamma_ns0, gamma_gq0, CF]
    norm_num
  · intro gQG gGG gQQ gGQ v w h1 h2 h3 h4
    rw [gQG.reproduces _ h1, gGG.reproduces _ h2, gQQ.reproduces _ h3,
      gGQ.reproduces _ h4]
    constructor <;> ring

/-- A constant parametrization with a single known moment at N = 2, used to
instantiate the quantified part of C3. -/
def fitMomentExample (v : ℂ) : FittedGamma where
  eval := fun _ => v
  moments := [(2, v)]
  reproduces := by
    intro p hp
    simp only [List.mem_singleton] at hp
    subst hp
    simp

/-- Concrete instance of C3: the generic moment-constraint argument applied
to example parametrizations with opposite moments at N = 2. -/
theorem singlet_momentum_sum_rule_at_N2_witness :
    (fitMomentExample 1).eval 2 + (fitMomentExample (-1)).eval 2 = 0 ∧
    (fitMomentExample 5).eval 2 + (fitMomentExample (-5)).eval 2 = 0 :=
  singlet_momentum_sum_rule_at_N2.2.2 (fitMomentExample 1) (fitMomentExample (-1))
    (fitMomentExample 5) (fitMomentExample (-5)) 1 5
    (by simp [fitMomentExample]) (by simp [fitMomentExample])
    (by simp [fitMomentExample]) (by simp [fitMomentExample])

/-! ### Scale variations -/

/-- Modelled from the spec: the exponentiated scale-variation mode
(ModSV = "exponentiated", pQCD.rst).  The variation is applied directly to
the splitting functions: with k = ln(mu_F^2/mu_R^2) the anomalous dimensions
gamma^(1), gamma^(2), gamma^(3) receive the printed shifts proportional to k,
while gamma^(0) is untouched.  The entries live in any module over the reals
(scalar non-singlet channels or singlet matrix blocks alike). -/
noncomputable def gammaSVExponentiated {A : Type} [AddCommGroup A] [Module ℝ A]
    (b0 b1 b2 k : ℝ) (g : Fin 4 → A) : Fin 4 → A
  | 0 => g 0
  | 1 => g 1 - (b0 * k) • g 0
  | 2 => g 2 - (2 * b0 * k) • g 1 - (b1 * k - b0 ^ 2 * k ^ 2) • g 0
  | 3 => g 3 - (3 * b0 * k) • g 2 - (2 * b1 * k - 3 * b0 ^ 2 * k ^ 2) • g 1 -
      (b2 * k - 5 / 2 * b1 * b0 * k ^ 2 + b0 ^ 3 * k ^ 3) • g 0

/-- Modelled from the spec: the multiplicative kernel K(a_s) of the expanded
scale-variation mode (ModSV = "expanded", pQCD.rst), expanded consistently
order by order in a_s through a_s^3 as printed:
K = 1 - a k g0 + a^2 (-k g1 + k^2/2 (b0 g0 + g0 g0))
+ a^3 (-k g2 + k^2/2 (b1 g0 + 2 b0 g1 + g1 g0 + g0 g1)
- k^3/6 (2 b0^2 g0 + 3 b0 g0 g0 + g0 g0 g0)). -/
noncomputable def kernelSVExpanded {A : Type} [Ring A] [Module ℝ A]
    (a k b0 b1 : ℝ) (g0 g1 g2 : A) : A :=
  1 - (a * k) • g0 +
    a ^ 2 • ((-k) • g1 + (k ^ 2 / 2) • (b0 • g0 + g0 * g0)) +
    a ^ 3 • ((-k) • g2 +
      (k ^ 2 / 2) • (b1 • g0 + (2 * b0) • g1 + g1 * g0 + g0 * g1) -
      (k ^ 3 / 6) • ((2 * b0 ^ 2) • g0 + (3 * b0) • (g0 * g0) + g0 * g0 * g0))

/-- C4: with k = ln(mu_F^2/mu_R^2) = 0 both scale-variation modes are inert:
every exponentiated-mode anomalous dimension equals the unvaried one, the
expanded-mode kernel K(a_s) is the identity, and hence multiplying any
evolution operator by K leaves it unchanged, for every configuration of
beta coefficients, couplings and anomalous dimensions. -/
theorem scale_variation_k_zero_is_identity :
    (∀ (A : Type) (_ : AddCommGroup A) (_ : Module ℝ A) (b0 b1 b2 : ℝ)
      (g : Fin 4 → A) (j : Fin 4), gammaSVExponentiated b0 b1 b2 0 g j = g j) ∧
    (∀ (A : Type) (_ : Ring A) (_ : Module ℝ A) (a b0 b1 : ℝ) (g0 g1 g2 : A),
      kernelSVExpanded a 0 b0 b1 g0 g1 g2 = 1) ∧
    (∀ (A : Type) (_ : Ring A) (_ : Module ℝ A) (a b0 b1 : ℝ) (g0 g1 g2 E : A),
      kernelSVExpanded a 0 b0 b1 g0 g1 g2 * E = E) := by
  have hker : ∀ (A : Type) (_ : Ring A) (_ : Module ℝ A) (a b0 b1 : ℝ)
      (g0 g1 g2 : A), kernelSVExpanded a 0 b0 b1 g0 g1 g2 = 1 := by
    intro A _ _ a b0 b1 g0 g1 g2
    simp [kernelSVExpanded]
  refine ⟨?_, hker, ?_⟩
  · intro A _ _ b0 b1 b2 g j
    fin_cases j <;> simp [gammaSVExponentiated]
  · intro A _ _ a b0 b1 g0 g1 g2 E
    rw [hker A _ _ a b0 b1 g0 g1 g2, one_mul]

/-! ### The two scale-variation modes are not equivalent (C5)

The evolution integral of -gamma(a_s)/beta(a_s) is evaluated before the
scale-variation procedure is applied, so the two modes differ.  The simplest
setting already exhibits this: a scalar (non-singlet) channel at leading
order, where the solution of the evolution ODE is exact and linear solutions
coincide with it. -/

/-- Modelled from the spec: the leading-order scalar evolution kernel for
d E/d ln mu^2 = -gamma(a_s) E with gamma(a) = a g0 and beta(a) = -b0 a^2,
obtained by the exact evaluation of the integral of -gamma(a_s)/beta(a_s):
E(a1 from a0) = (a1/a0)^(g0/b0). -/
noncomputable def ekLO (g0 b0 a1 a0 : ℝ) : ℝ :=
  (a1 / a0) ^ (g0 / b0)

/-- Modelled from the spec: the exponentiated scale-variation mode at leading
order.  The printed shifts only modify gamma^(1) and higher, so at order
(1, 0) the varied operator is the unvaried kernel itself. -/
noncomputable def ekLOSVExponentiated (g0 b0 _k a1 a0 : ℝ) : ℝ :=
  ekLO g0 b0 a1 a0

/-- Modelled from the spec: the expanded scale-variation mode at leading
order: the evolution kernel is multiplied by K(a_s) truncated at order a_s,
K = 1 - a_s k gamma^(0), evaluated at the target coupling a1. -/
noncomputable def ekLOSVExpanded (g0 b0 k a1 a0 : ℝ) : ℝ :=
  (1 - a1 * k * g0) * ekLO g0 b0 a1 a0

/-- C5: the two scale-variation modes are not exactly equivalent.  Their
difference is -(a1 k g0) times the evolution kernel, so it depends on the
evolution distance (through a1 and the kernel) and on the ratio k; at the
concrete point g0 = b0 = 1, k = 1, a0 = 1/10, a1 = 1/20 (a leading-order
configuration, where linearized and exact solutions coincide) the two modes
return different operators, and the difference itself changes with the
evolution distance (a1 = 1/20 versus a1 = 1/40). -/
theorem scale_variation_modes_differ :
    (∀ g0 b0 k a1 a0 : ℝ,
      ekLOSVExpanded g0 b0 k a1 a0 - ekLOSVExponentiated g0 b0 k a1 a0 =
        -(a1 * k * g0) * ekLO g0 b0 a1 a0) ∧
    ekLOSVExpanded 1 1 1 (1/20) (1/10) ≠ ekLOSVExponentiated 1 1 1 (1/20) (1/10) ∧
    ekLOSVExpanded 1 1 1 (1/20) (1/10) - ekLOSVExponentiated 1 1 1 (1/20) (1/10) ≠
      ekLOSVExpanded 1 1 1 (1/40) (1/10) - ekLOSVExponentiated 1 1 1 (1/40) (1/10) := by
  have hk : ∀ a1 : ℝ, ekLO 1 1 a1 (1/10) = a1 / (1/10) := by
    intro a1
    simp [ekLO]
  refine ⟨?_, ?_, ?_⟩
  · intro g0 b0 k a1 a0
    simp only [ekLOSVExpanded, ekLOSVExponentiated]
    ring
  · simp only [ekLOSVExpanded, ekLOSVExponentiated, hk]
    norm_num
  · simp only [ekLOSVExpanded, ekLOSVExponentiated, hk]
    norm_num

/-! ### Threshold atlas -/

/-- Modelled from the spec: one fixed-flavor-number sub-path of a threshold
atlas path, (flavor_number, entry_scale^2, exit_scale^2). -/
structure Segment where
  nf : ℕ
  qIn : ℚ
  qOut : ℚ
deriving DecidableEq

/-- Contiguity of two consecutive path segments: the exit scale of the first
is the entry scale of the second, and the flavor numbers differ by exactly
one. -/
def segAdj (s t : Segment) : Prop :=
  s.qOut = t.qIn ∧ (t.nf = s.nf + 1 ∨ s.nf = t.nf + 1)

/-- The matching scale (squared) at which the nf-th flavor becomes active,
for nf = 4, 5, 6: the heavy-quark threshold scales of the atlas. -/
def wallOf (w4 w5 w6 : ℚ) : ℕ → ℚ :=
  fun nf => if nf = 4 then w4 else if nf = 5 then w5 else if nf = 6 then w6 else 0

/-- Modelled from the spec: the upward leg of an atlas path, crossing the
given number of thresholds; each crossing enters the next flavor patch at
the wall of the activated flavor. -/
def pathUp (wall : ℕ → ℚ) (q2to : ℚ) : ℕ → ℕ → ℚ → List Segment
  | 0, nf, q2from => [⟨nf, q2from, q2to⟩]
  | steps + 1, nf, q2from =>
      ⟨nf, q2from, wall (nf + 1)⟩ :: pathUp wall q2to steps (nf + 1) (wall (nf + 1))

/-- Modelled from the spec: the downward leg of an atlas path, crossing the
given number of thresholds towards fewer flavors. -/
def pathDown (wall : ℕ → ℚ) (q2to : ℚ) : ℕ → ℕ → ℚ → List Segment
  | 0, nf, q2from => [⟨nf, q2from, q2to⟩]
  | steps + 1, nf, q2from =>
      ⟨nf, q2from, wall nf⟩ :: pathDown wall q2to steps (nf - 1) (wall nf)

/-- Modelled from the spec: the ordered path of flavor-number segments
connecting the reference (q2ref, nfref) to a target (q2to, nfto): the
operation path(target_scale^2) of the threshold atlas. -/
def atlasPath (wall : ℕ → ℚ) (nfref nfto : ℕ) (q2ref q2to : ℚ) : List Segment :=
  if nfref ≤ nfto then pathUp wall q2to (nfto - nfref) nfref q2ref
  else pathDown wall q2to (nfref - nfto) nfref q2ref

/-- Modelled from the spec: eager validation of the atlas configuration,
a configuration error when the reference scale is non-positive or the
threshold scales are not strictly increasing. -/
def checkAtlasConfig (walls : List ℚ) (q2ref : ℚ) : Except EkoError Unit :=
  if 0 < q2ref ∧ walls.Chain' (· < ·) then Except.ok ()
  else Except.error (.configurationError
    ("scales must be positive and thresholds strictly increasing"))

/-- Modelled from the spec: membership of a scale in the fixed-flavor area
with the given flavor number, for the atlas areas (3, (0, w4)), (4, [w4, w5)),
(5, [w5, w6)), (6, [w6, inf)). -/
def inArea (w4 w5 w6 : ℚ) (nf : ℕ) (q : ℚ) : Prop :=
  if nf = 3 then 0 < q ∧ q < w4
  else if nf = 4 then w4 ≤ q ∧ q < w5
  else if nf = 5 then w5 ≤ q ∧ q < w6
  else if nf = 6 then w6 ≤ q
  else False

/-- The flavor number of the area holding a given scale. -/
def nfOfScale (w4 w5 w6 q : ℚ) : ℕ :=
  if q < w4 then 3 else if q < w5 then 4 else if q < w6 then 5 else 6

theorem pathUp_head (wall : ℕ → ℚ) (q2to : ℚ) :
    ∀ (steps nf : ℕ) (q2from : ℚ),
      ∃ qo, (pathUp wall q2to steps nf q2from).head? = some ⟨nf, q2from, qo⟩ := by
  intro steps nf q2from
  cases steps <;> exact ⟨_, rfl⟩

theorem pathDown_head (wall : ℕ → ℚ) (q2to : ℚ) :
    ∀ (steps nf : ℕ) (q2from : ℚ),
      ∃ qo, (pathDown wall q2to steps nf q2from).head? = some ⟨nf, q2from, qo⟩ := by
  intro steps nf q2from
  cases steps <;> exact ⟨_, rfl⟩

theorem pathUp_chain (wall : ℕ → ℚ) (q2to : ℚ) :
    ∀ (steps nf : ℕ) (q2from : ℚ),
      List.Chain' segAdj (pathUp wall q2to steps nf q2from) := by
  intro steps
  induction steps with
  | zero => intro nf q2from; simp [pathUp]
  | succ n ih =>
      intro nf q2from
      rw [pathUp, List.chain'_cons']
      refine ⟨?_, ih (nf + 1) (wall (nf + 1))⟩
      intro b hb
      obtain ⟨qo, hh⟩ := pathUp_head wall q2to n (nf + 1) (wall (nf + 1))
      rw [hh, Option.mem_some_iff] at hb
      subst hb
      exact ⟨rfl, Or.inl rfl⟩

theorem pathDown_chain (wall : ℕ → ℚ) (q2to : ℚ) :
    ∀ (steps nf : ℕ) (q2from : ℚ), steps ≤ nf →
      List.Chain' segAdj (pathDown wall q2to steps nf q2from) := by
  intro steps
  induction steps with
  | zero => intro nf q2from _; simp [pathDown]
  | succ n ih =>
      intro nf q2from hle
      rw [pathDown, List.chain'_cons']
      refine ⟨?_, ih (nf - 1) (wall nf) (by omega)⟩
      intro b hb
      obtain ⟨qo, hh⟩ := pathDown_head wall q2to n (nf - 1) (wall nf)
      rw [hh, Option.mem_some_iff] at hb
      subst hb
      refine ⟨rfl, Or.inr ?_⟩
      show nf = nf - 1 + 1
      omega

/-- C6: the threshold atlas path is contiguous: for every configuration the
exit scale of each segment is the entry scale of the next and adjacent
segments change the flavor number by exactly one; a configuration the eager
validation accepts has a positive reference scale and strictly increasing
threshold scales; and the reference scale then lies within exactly one of
the fixed-flavor areas of the atlas. -/
theorem atlas_path_contiguous (w4 w5 w6 q2ref q2to : ℚ) (nfref nfto : ℕ)
    (hok : checkAtlasConfig [w4, w5, w6] q2ref = Except.ok ()) :
    List.Chain' segAdj (atlasPath (wallOf w4 w5 w6) nfref nfto q2ref q2to) ∧
    (0 < q2ref ∧ w4 < w5 ∧ w5 < w6) ∧
    (∃! nf, inArea w4 w5 w6 nf q2ref) := by
  have hvalid : 0 < q2ref ∧ w4 < w5 ∧ w5 < w6 := by
    by_cases hc : 0 < q2ref ∧ List.Chain' (· < ·) [w4, w5, w6]
    · obtain ⟨h1, h2⟩ := hc
      simp only [List.chain'_cons, List.chain'_singleton, and_true] at h2
      exact ⟨h1, h2⟩
    · rw [checkAtlasConfig, if_neg hc] at hok
      exact absurd hok (by simp)
  obtain ⟨hq, h45, h56⟩ := hvalid
  refine ⟨?_, ⟨hq, h45, h56⟩, ?_⟩
  · rw [atlasPath]
    by_cases hle : nfref ≤ nfto
    · rw [if_pos hle]
      exact pathUp_chain _ _ _ _ _
    · rw [if_neg hle]
      exact pathDown_chain _ _ _ _ _ (Nat.sub_le _ _)
  · refine ⟨nfOfScale w4 w5 w6 q2ref, ?_, ?_⟩
    · unfold nfOfScale inArea
      split_ifs with h1 h2 h3
      · exact ⟨hq, h1⟩
      · exact ⟨le_of_not_lt h1, h2⟩
      · exact ⟨le_of_not_lt h2, h3⟩
      · exact le_of_not_lt h3
    · intro m hm
      unfold inArea at hm
      split_ifs at hm with e3 e4 e5 e6
      · subst e3
        unfold nfOfScale
        split_ifs with h1 h2 h3 <;> first | rfl | exact absurd hm.2 h1
      · subst e4
        unfold nfOfScale
        split_ifs with h1 h2 h3 <;>
          first
          | rfl
          | exact absurd h1 (not_lt.mpr hm.1)
          | exact absurd hm.2 h2
      · subst e5
        unfold nfOfScale
        split_ifs with h1 h2 h3 <;>
          first
          | rfl
          | exact absurd h1 (not_lt.mpr (le_trans h45.le hm.1))
          | exact absurd h2 (not_lt.mpr hm.1)
          | exact absurd hm.2 h3
      · subst e6
        unfold nfOfScale
        split_ifs with h1 h2 h3 <;>
          first
          | rfl
          | exact absurd h1 (not_lt.mpr (le_trans (le_trans h45.le h56.le) hm))
          | exact absurd h2 (not_lt.mpr (le_trans h56.le hm))
          | exact absurd h3 (not_lt.mpr hm)

/-- Concrete instance of C6: thresholds 4 < 25 < 30000 with reference scale
100 in the five-flavor patch and target scale 2, path descending from five
to three flavors. -/
theorem atlas_path_contiguous_witness :
    List.Chain' segAdj (atlasPath (wallOf 4 25 30000) 5 3 100 2) ∧
    ((0 : ℚ) < 100 ∧ (4 : ℚ) < 25 ∧ (25 : ℚ) < 30000) ∧
    (∃! nf, inArea 4 25 30000 nf 100) :=
  atlas_path_contiguous 4 25 30000 100 2 5 3 (by
    unfold checkAtlasConfig
    rw [if_pos]
    norm_num [List.chain'_cons, List.chain'_singleton])

/-! ### Evolution operators at zero distance -/

/-- Modelled from the spec: the exact per-segment non-singlet evolution
kernel at a fixed Mellin variable, E(a1 from a0) = exp of the evolution
integral over the coupling from a0 to a1; j is the integrand
-gamma(a)/beta(a) of that integral. -/
noncomputable def ekNSExact (j : ℝ → ℝ) (a1 a0 : ℝ) : ℝ :=
  Real.exp (∫ a in a0..a1, j a)

/-- Modelled from the spec: the iterate-exact strategy: the coupling span is
subdivided into ev_op_iterations sub-steps and the per-step kernels are
composed by multiplication. -/
noncomputable def ekNSIterated (j : ℝ → ℝ) (n : ℕ) (a1 a0 : ℝ) : ℝ :=
  ((List.range n).map fun i =>
    ekNSExact j (a0 + (i + 1) * ((a1 - a0) / n)) (a0 + i * ((a1 - a0) / n))).prod

/-- Modelled from the spec: the truncated strategy: the leading-order kernel
times the linearized correction in a1 - a0 with coefficient u1. -/
noncomputable def ekNSTruncated (g0 b0 u1 a1 a0 : ℝ) : ℝ :=
  ekLO g0 b0 a1 a0 * (1 + (a1 - a0) * u1)

/-- Modelled from the spec: the expanded strategy variants: exact integration
of the series-expanded integrand, whose primitive is jExp. -/
noncomputable def ekNSExpanded (jExp : ℝ → ℝ) (a1 a0 : ℝ) : ℝ :=
  Real.exp (jExp a1 - jExp a0)

/-- Modelled from the spec: the exact singlet evolution kernel: the matrix
exponential of the 2x2 matrix of entrywise evolution integrals from a0 to
a1. -/
noncomputable def ekSingletExact (G : ℝ → Matrix (Fin 2) (Fin 2) ℝ) (a1 a0 : ℝ) :
    Matrix (Fin 2) (Fin 2) ℝ :=
  NormedSpace.exp ℝ (Matrix.of fun i k => ∫ a in a0..a1, G a i k)

/-- C7: at zero evolution distance (target coupling equal to the reference
coupling a0) every solving strategy returns the identity operator, in the
scalar non-singlet channels and in the 2x2 singlet flavor block alike. -/
theorem zero_distance_operator_is_identity (a0 : ℝ) (h : a0 ≠ 0) :
    (∀ j : ℝ → ℝ, ekNSExact j a0 a0 = 1) ∧
    (∀ (j : ℝ → ℝ) (n : ℕ), ekNSIterated j n a0 a0 = 1) ∧
    (∀ g0 b0 u1 : ℝ, ekNSTruncated g0 b0 u1 a0 a0 = 1) ∧
    (∀ jExp : ℝ → ℝ, ekNSExpanded jExp a0 a0 = 1) ∧
    (∀ G : ℝ → Matrix (Fin 2) (Fin 2) ℝ, ekSingletExact G a0 a0 = 1) := by
  refine ⟨?_, ?_, ?_, ?_, ?_⟩
  · intro j
    simp [ekNSExact, intervalIntegral.integral_same]
  · intro j n
    refine List.prod_eq_one ?_
    intro x hx
    simp only [List.mem_map, List.mem_range] at hx
    obtain ⟨i, _, rfl⟩ := hx
    simp [ekNSExact, intervalIntegral.integral_same]
  · intro g0 b0 u1
    simp [ekNSTruncated, ekLO, div_self h, Real.one_rpow]
  · intro jExp
    simp [ekNSExpanded]
  · intro G
    rw [ekSingletExact]
    have hzero : (Matrix.of fun i k => ∫ a in a0..a0, G a i k) =
        (0 : Matrix (Fin 2) (Fin 2) ℝ) := by
      ext i k
      simp [intervalIntegral.integral_same]
    rw [hzero, NormedSpace.exp_zero]

/-- Concrete instance of C7 at reference coupling a0 = 1, which is not
zero. -/
theorem zero_distance_operator_is_identity_witness :
    (∀ j : ℝ → ℝ, ekNSExact j 1 1 = 1) ∧
    (∀ (j : ℝ → ℝ) (n : ℕ), ekNSIterated j n 1 1 = 1) ∧
    (∀ g0 b0 u1 : ℝ, ekNSTruncated g0 b0 u1 1 1 = 1) ∧
    (∀ jExp : ℝ → ℝ, ekNSExpanded jExp 1 1 = 1) ∧
    (∀ G : ℝ → Matrix (Fin 2) (Fin 2) ℝ, ekSingletExact G 1 1 = 1) :=
  zero_distance_operator_is_identity 1 (by norm_num)

/-! ### Order (0, 0): no evolution -/

/-- Modelled from the spec (pQCD.rst, Order specification): the splitting
functions truncated at QCD order n, written in Mellin space:
gamma(a, N) = sum over j < n of a^(j+1) gamma^(j)(N); the family g carries
the order-by-order values at the Mellin point.  With order = (0, 0) the sum
is empty. -/
noncomputable def gammaAtOrder (orderQCD : ℕ) (a : ℂ) (g : ℕ → ℂ) : ℂ :=
  ∑ j ∈ Finset.range orderQCD, a ^ (j + 1) * g j

/-- Modelled from the spec: the beta function truncated at QCD order n,
beta(a) = - sum over k < n of beta_k a^(k+2); with order = (0, 0) the sum is
empty and the coupling does not run. -/
noncomputable def betaAtOrder (orderQCD : ℕ) (b : ℕ → ℝ) (a : ℝ) : ℝ :=
  -∑ k ∈ Finset.range orderQCD, b k * a ^ (k + 2)

/-- C10: with order = (0, 0) there is no evolution: the anomalous dimensions
vanish identically for every Mellin point and flavor configuration, the
constant coupling solves the order-zero RGE (a_s is kept fixed), and the
evolution operator is the identity for every target coupling, in the
non-singlet channel and in the singlet block. -/
theorem order_zero_zero_no_evolution :
    (∀ (a : ℂ) (g : ℕ → ℂ), gammaAtOrder 0 a g = 0) ∧
    (∀ (b : ℕ → ℝ) (aRef L : ℝ),
      HasDerivAt (fun _ : ℝ => aRef) (betaAtOrder 0 b aRef) L) ∧
    (∀ a1 a0 : ℝ, ekNSExact (fun _ => 0) a1 a0 = 1) ∧
    (∀ a1 a0 : ℝ, ekSingletExact (fun _ => 0) a1 a0 = 1) := by
  refine ⟨?_, ?_, ?_, ?_⟩
  · intro a g
    simp [gammaAtOrder]
  · intro b aRef L
    simpa [betaAtOrder] using hasDerivAt_const L aRef
  · intro a1 a0
    simp [ekNSExact]
  · intro a1 a0
    rw [ekSingletExact]
    have hzero : (Matrix.of fun i k => ∫ _ in a0..a1, (0 : Matrix (Fin 2) (Fin 2) ℝ) i k) =
        (0 : Matrix (Fin 2) (Fin 2) ℝ) := by
      ext i k
      simp
    rw [hzero, NormedSpace.exp_zero]

/-! ### MSbar heavy-quark mass running -/

/-- The heavy quarks whose MSbar masses the MSBAR mode solves. -/
inductive HeavyQuark where
  | charm
  | bottom
  | top
deriving DecidableEq

/-- The number of active flavors in the patch the quark opens: 4 for charm,
5 for bottom, 6 for top. -/
def nfOfQuark : HeavyQuark → ℕ
  | .charm => 4
  | .bottom => 5
  | .top => 6

/-- Modelled from the spec: the order in which the MSBAR mode solves the
transcendental equations m(m^2) = m.  The solve always starts with the
quark nearest the reference patch: quarks whose patch lies above the
reference flavor number are handled first moving upward away from it, then
the remaining ones moving downward, because every computed mass updates the
temporary Couplings instance used by the next solve. -/
def msbarSolveOrder (nfref : ℕ) : List HeavyQuark :=
  ([HeavyQuark.charm, .bottom, .top].filter fun q => nfref < nfOfQuark q) ++
    ([HeavyQuark.top, .bottom, .charm].filter fun q => nfOfQuark q ≤ nfref)

/-- Modelled from the spec: the temporary fixed-flavor Couplings instance
during the MSBAR iteration, carrying the mass scales computed so far. -/
structure MsbarState where
  mass : HeavyQuark → Option ℚ

/-- Modelled from the spec: one step of the MSBAR iteration: solve one quark
with the current temporary state (the monotone root search itself is the
abstract argument solveOne) and record the computed mass in the state. -/
def msbarStep (solveOne : MsbarState → HeavyQuark → ℚ) (st : MsbarState)
    (q : HeavyQuark) : MsbarState :=
  ⟨fun r => if r = q then some (solveOne st q) else st.mass r⟩

/-- Modelled from the spec: the full MSBAR iteration over the heavy quarks
in the solve order, threading the temporary state. -/
def msbarSolveAll (solveOne : MsbarState → HeavyQuark → ℚ) (nfref : ℕ) :
    MsbarState :=
  (msbarSolveOrder nfref).foldl (msbarStep solveOne) ⟨fun _ => none⟩

/-- C8: with the reference coupling given at nf_ref = 5 (the documented
example, alpha_s at mu_ref = 91), the MSBAR mode solves the quarks in the
order t, b, c, starting with the quark nearest the reference; and the state
in which the charm mass is computed already records the solved top and
bottom masses, so each solve uses the temporary instance updated by the
previous ones. -/
theorem msbar_solve_order_example :
    msbarSolveOrder 5 = [HeavyQuark.top, HeavyQuark.bottom, HeavyQuark.charm] ∧
    (∀ solveOne : MsbarState → HeavyQuark → ℚ,
      ∃ st : MsbarState,
        (msbarSolveAll solveOne 5).mass .charm = some (solveOne st .charm) ∧
        st.mass .top ≠ none ∧ st.mass .bottom ≠ none) := by
  constructor
  · rfl
  · intro f
    refine ⟨msbarStep f (msbarStep f ⟨fun _ => none⟩ .top) .bottom, ?_, ?_, ?_⟩
    · rfl
    · simp [msbarStep]
    · simp [msbarStep]

/-- Modelled from the spec: the post-solve consistency check of the MSBAR
mode: the computed mass scales must be properly sorted, m_c < m_b < m_t;
otherwise a configuration error is raised (fatal, surfaced immediately, no
retry). -/
def msbarConsistencyCheck (mc mb mt : ℚ) : Except EkoError Unit :=
  if mc < mb ∧ mb < mt then Except.ok ()
  else Except.error (.configurationError
    ("MSbar masses are not correctly sorted"))

/-- C9: the consistency check fails with a configuration error exactly when
the computed mass scales are not properly ordered, and raises nothing when
they are. -/
theorem msbar_consistency_check_iff (mc mb mt : ℚ) :
    (¬(mc < mb ∧ mb < mt) →
      msbarConsistencyCheck mc mb mt =
        Except.error (.configurationError
          ("MSbar masses are not correctly sorted"))) ∧
    ((mc < mb ∧ mb < mt) → msbarConsistencyCheck mc mb mt = Except.ok ()) := by
  constructor <;> intro h <;> simp [msbarConsistencyCheck, h]

/-- Concrete instances of C9: unordered masses (3, 2, 160) are rejected with
a configuration error; ordered masses (2, 5, 160) pass the check. -/
theorem msbar_consistency_check_iff_witness :
    msbarConsistencyCheck 3 2 160 =
      Except.error (.configurationError
        ("MSbar masses are not correctly sorted")) ∧
    msbarConsistencyCheck 2 5 160 = Except.ok () :=
  ⟨(msbar_consistency_check_iff 3 2 160).1 (by norm_num),
    (msbar_consistency_check_iff 2 5 160).2 (by norm_num)⟩

end Eko
